import Mathlib

/-!
# Verification of the FATQT IDX shareholder extraction module

Shallow embedding of `src/backend/analysis/idx_shareholder.py` (the
shareholder-extraction pipeline) and proofs about the claims of the
specification.  Python strings are modelled as `List Char`; the regular
expressions of the source are modelled by small backtracking matcher
combinators (a matcher returns the list of possible remainders, in the
backtracking order Python's `re` uses: greedy quantifiers produce the
longest remainder first, alternation is tried left to right).  Machine
floats carrying at most four decimal digits are modelled as `ℚ`;
percentages in the source always have that shape, and on them every
comparison performed by the code (`< 0`, `> 100`, `<= 0`, `>= 0.01`)
agrees with the rational comparison.
-/

namespace IdxShareholder

/-- Python `\s` on the inputs at hand (ASCII whitespace). -/
def isWS (c : Char) : Bool :=
  c = ' ' || c = '\t' || c = '\n' || c = '\r' || c = '\x0b' || c = '\x0c'

/-- ASCII decimal digit, Python `\d` on ASCII input. -/
def isDigit (c : Char) : Bool := '0' ≤ c && c ≤ '9'

/-- ASCII `[A-Z]`. -/
def isUpper (c : Char) : Bool := 'A' ≤ c && c ≤ 'Z'

/-- ASCII `[a-z]`. -/
def isLower (c : Char) : Bool := 'a' ≤ c && c ≤ 'z'

/-- ASCII `[A-Za-z]`. -/
def isLetter (c : Char) : Bool := isUpper c || isLower c

/-- Python `\w` (ASCII): letter, digit or underscore. -/
def isWord (c : Char) : Bool := isLetter c || isDigit c || c = '_'

/-- ASCII lower-casing, as used for `re.IGNORECASE` and `str.lower()`. -/
def lowerChar (c : Char) : Char :=
  if isUpper c then Char.ofNat (c.toNat + 32) else c

def lowerStr (cs : List Char) : List Char := cs.map lowerChar

/-- Case-insensitive character equality. -/
def ciEq (a b : Char) : Bool := lowerChar a = lowerChar b

/-- `l.startswith w` up to case. -/
def startsCI : List Char → List Char → Bool
  | _, [] => true
  | [], _ :: _ => false
  | c :: cs, w :: ws => ciEq c w && startsCI cs ws

/-- Case-sensitive `l.startswith w`. -/
def startsCS : List Char → List Char → Bool
  | _, [] => true
  | [], _ :: _ => false
  | c :: cs, w :: ws => (c = w : Bool) && startsCS cs ws

/-- Does `w` occur as a (case-insensitive) substring?  Models
`re.search` of a literal word under `re.IGNORECASE` and Python's
`w in s.lower()`. -/
def containsCI (cs w : List Char) : Bool :=
  match cs with
  | [] => startsCI [] w
  | _ :: rest => startsCI cs w || containsCI rest w

/-- First index at which the literal `w` occurs (case-sensitive), as
`str.find` returns it; `none` when absent. -/
def findSub (cs w : List Char) : Option Nat :=
  match cs with
  | [] => if startsCS [] w then some 0 else none
  | _ :: rest =>
    if startsCS cs w then some 0 else
      match findSub rest w with
      | some n => some (n + 1)
      | none => none

/-- Python `str.strip()` (strip ASCII whitespace from both ends). -/
def pyStrip (cs : List Char) : List Char :=
  ((cs.dropWhile (isWS ·)).reverse.dropWhile (isWS ·)).reverse

/-- Python `str.strip(chars)` for an explicit character set. -/
def pyStripChars (set : List Char) (cs : List Char) : List Char :=
  ((cs.dropWhile (set.contains ·)).reverse.dropWhile (set.contains ·)).reverse

/-- Worker for `pyWords`: `acc` holds the current word reversed. -/
def pyWordsAux : List Char → List Char → List (List Char)
  | [], acc => if acc.isEmpty then [] else [acc.reverse]
  | c :: cs, acc =>
    if isWS c then
      if acc.isEmpty then pyWordsAux cs [] else acc.reverse :: pyWordsAux cs []
    else pyWordsAux cs (c :: acc)

/-- Python `str.split()` (split on whitespace runs, dropping empties). -/
def pyWords (cs : List Char) : List (List Char) := pyWordsAux cs []

/-- Join words with single spaces: `' '.join(ws)`. -/
def joinSpace : List (List Char) → List Char
  | [] => []
  | [w] => w
  | w :: ws => w ++ ' ' :: joinSpace ws

/-- `' '.join(s.split())`: collapse internal whitespace. -/
def collapseWS (cs : List Char) : List Char := joinSpace (pyWords cs)

/-! ## Backtracking matcher combinators

A matcher sends a suffix of the subject to the list of remainders of all
the ways it can match a prefix of that suffix, ordered the way Python's
backtracking explores them (greedy quantifiers longest-first,
alternation left to right).  A regex is translated combinator by
combinator; `re.search` tries every start position left to right. -/

/-- Matchers: suffix to the remainders of every possible match. -/
abbrev M := List Char → List (List Char)

/-- Single character of a class (e.g. one `\d`). -/
def mCh (p : Char → Bool) : M := fun cs =>
  match cs with
  | [] => []
  | c :: rest => if p c then [rest] else []

/-- Case-insensitive literal. -/
def mLit (w : List Char) : M := fun cs =>
  if startsCI cs w then [cs.drop w.length] else []

/-- Case-sensitive literal. -/
def mLitCS (w : List Char) : M := fun cs =>
  if startsCS cs w then [cs.drop w.length] else []

/-- Sequencing of two matchers, in backtracking order. -/
def mSeq (m1 m2 : M) : M := fun cs => (m1 cs).flatMap m2

/-- Alternation, left alternative first. -/
def mAlt (m1 m2 : M) : M := fun cs => m1 cs ++ m2 cs

/-- Greedy option `(...)?`: with the body first, then without. -/
def mOpt (m : M) : M := fun cs => m cs ++ [cs]

/-- End anchor `$`. -/
def mEnd : M := fun cs => if cs.isEmpty then [[]] else []

/-- Remainders after dropping `k, k-1, ..., lo` leading characters of a
class, greedy order; used for `X*`, `X+`, `X{lo,hi}` on a character
class. -/
def classDrops (lo : Nat) : Nat → List Char → List (List Char)
  | 0, cs => if lo = 0 then [cs] else []
  | k + 1, cs =>
    if lo ≤ k + 1 then List.drop (k + 1) cs :: classDrops lo k cs else []

/-- Greedy `X*` for a character class `p`. -/
def mStarCh (p : Char → Bool) : M := fun cs =>
  classDrops 0 ((cs.takeWhile p).length) cs

/-- Greedy `X+` for a character class `p`. -/
def mPlusCh (p : Char → Bool) : M := fun cs =>
  classDrops 1 ((cs.takeWhile p).length) cs

/-- Greedy `X{lo,hi}` for a character class `p`. -/
def mRangeCh (p : Char → Bool) (lo hi : Nat) : M := fun cs =>
  classDrops lo (min hi ((cs.takeWhile p).length)) cs

/-- Greedy `(...)*` over an arbitrary matcher, fuel-bounded (every use
in this file has a body consuming at least one character, so fuel
`cs.length + 1` is exhaustive). -/
def mStarFuel (m : M) : Nat → M
  | 0 => fun cs => [cs]
  | n + 1 => fun cs => (m cs).flatMap (mStarFuel m n) ++ [cs]

def mStar (m : M) : M := fun cs => mStarFuel m (cs.length + 1) cs

/-- Did the matcher match here?  (`re.match` when used on the whole
subject.) -/
def mHere (m : M) (cs : List Char) : Bool := !(m cs).isEmpty

/-- `re.search`: does the matcher match at some start position? -/
def mSearch (m : M) : List Char → Bool
  | [] => mHere m []
  | c :: rest => mHere m (c :: rest) || mSearch m rest

/-- Number of characters consumed by the preferred (first-explored)
match at this position: Python's `match.end()` for anchored patterns. -/
def mHereLen (m : M) (cs : List Char) : Option Nat :=
  match (m cs).head? with
  | some rest => some (cs.length - rest.length)
  | none => none

/-- Chain of `mSeq`, for readability of long patterns. -/
def mCat : List M → M
  | [] => fun cs => [cs]
  | m :: ms => mSeq m (mCat ms)

/-- First alternative of a list of matchers (regex `a|b|c`). -/
def mAlts : List M → M
  | [] => fun _ => []
  | m :: ms => mAlt m (mAlts ms)

/-- `\s*` matcher. -/
def mWS0 : M := mStarCh isWS

/-- `\s+` matcher. -/
def mWS1 : M := mPlusCh isWS

/-! ## Page classifier (`extract_shareholders_from_pdf`, lines 149-194)

Each regex of the page-selection loop is translated literally. -/

/-- String literal convenience. -/
def L (s : String) : List Char := s.data

/-- `re.search(r'daftar\s*isi|table\s*of\s*contents', text, re.IGNORECASE)` -/
def is_toc (text : List Char) : Bool :=
  mSearch (mAlt (mCat [mLit (L "daftar"), mWS0, mLit (L "isi")])
               (mCat [mLit (L "table"), mWS0, mLit (L "of"), mWS0, mLit (L "contents")])) text

/-- `re.search(r'penjualan\s*neto|net\s*sales|pelanggan\s+yang|customers?\s+which', text, re.IGNORECASE)` -/
def is_sales_page (text : List Char) : Bool :=
  mSearch (mAlts
    [ mCat [mLit (L "penjualan"), mWS0, mLit (L "neto")]
    , mCat [mLit (L "net"), mWS0, mLit (L "sales")]
    , mCat [mLit (L "pelanggan"), mWS1, mLit (L "yang")]
    , mCat [mLit (L "customer"), mOpt (mLit (L "s")), mWS1, mLit (L "which")] ]) text

/-- `re.search(r'\d+\.\s*Modal\s*Saham', text, re.IGNORECASE)` -/
def has_modal_saham_header (text : List Char) : Bool :=
  mSearch (mCat [mPlusCh isDigit, mLitCS (L "."), mWS0,
                 mLit (L "Modal"), mWS0, mLit (L "Saham")]) text

/-- `re.search(r'\d+\.\s*Modal\s*Saham\s*\((?:Lanjutan|lanjutan|Continued|continued)\)', text, re.IGNORECASE)` -/
def is_modal_saham_continuation (text : List Char) : Bool :=
  mSearch (mCat [mPlusCh isDigit, mLitCS (L "."), mWS0,
                 mLit (L "Modal"), mWS0, mLit (L "Saham"), mWS0, mLitCS (L "("),
                 mAlt (mLit (L "Lanjutan")) (mLit (L "Continued")), mLitCS (L ")")]) text

/-- `re.search(r'Susunan\s*pemegang\s*saham', text, re.IGNORECASE)` -/
def has_susunan_in_page (text : List Char) : Bool :=
  mSearch (mCat [mLit (L "Susunan"), mWS0, mLit (L "pemegang"), mWS0, mLit (L "saham")]) text

/-- `re.search(r'pemegang\s*saham|shareholders', text, re.IGNORECASE)` -/
def has_pemegang_saham (text : List Char) : Bool :=
  mSearch (mAlt (mCat [mLit (L "pemegang"), mWS0, mLit (L "saham")])
               (mLit (L "shareholders"))) text

/-- `re.search(r'persentase|percentage|ownership', text, re.IGNORECASE)` -/
def has_persentase (text : List Char) : Bool :=
  mSearch (mAlts [mLit (L "persentase"), mLit (L "percentage"), mLit (L "ownership")]) text

/-- `.` of an `re` pattern without `re.DOTALL`: anything but a newline. -/
def isDotChar (c : Char) : Bool := c ≠ '\n'

/-- `[.,]` -/
def isSep (c : Char) : Bool := c = '.' || c = ','

/-- `[.,\d]` -/
def isSepOrDigit (c : Char) : Bool := isSep c || isDigit c

/-- `re.search(r'(?:PT\s+[A-Za-z]|Masyarakat|Goldwave|Zurich|Muhammad|Public).+\d{1,3}[.,]\d{3}[.,\d]+.+\d{1,2}[,\.]\d{2,4}', text, re.IGNORECASE)` -/
def has_shareholder_data (text : List Char) : Bool :=
  mSearch (mCat
    [ mAlts [ mCat [mLit (L "PT"), mWS1, mCh isLetter]
            , mLit (L "Masyarakat"), mLit (L "Goldwave"), mLit (L "Zurich")
            , mLit (L "Muhammad"), mLit (L "Public") ]
    , mPlusCh isDotChar
    , mRangeCh isDigit 1 3, mCh isSep, mRangeCh isDigit 3 3
    , mPlusCh isSepOrDigit
    , mPlusCh isDotChar
    , mRangeCh isDigit 1 2, mCh isSep, mRangeCh isDigit 2 4 ]) text

/-- Which row-parsing strategy a selected page drives
(`shareholder_pages` entries `'modal_saham'` / `'susunan'`). -/
inductive PageKind where
  | modal_saham
  | susunan
deriving DecidableEq, Repr

/-! ## Number machinery of `extract_modal_saham_row_v2` (lines 397-491) -/

/-- A group `sep\d\d\d` at the head of the suffix; returns the rest. -/
def group3 (sep : Char) : List Char → Option (List Char)
  | s :: a :: b :: c :: rest =>
    if s = sep && isDigit a && isDigit b && isDigit c then some rest else none
  | _ => none

/-- Existence of a match of `\d{1,3}(?:<sep>\d{3}){2,}` at this start
position.  A match exists somewhere iff some position carries
digit, sep, three digits, sep, three digits. -/
def runAt (sep : Char) : List Char → Bool
  | [] => false
  | c :: rest =>
    isDigit c &&
      (match group3 sep rest with
       | some r1 => (group3 sep r1).isSome
       | none => false)

/-- `re.search(r'\d{1,3}(?:<sep>\d{3}){2,}', line)`:
a qualifying thousands run (at least two 3-digit groups). -/
def hasRun (sep : Char) : List Char → Bool
  | [] => false
  | c :: rest => runAt sep (c :: rest) || hasRun sep rest

/-- Match of `\d{1,3}<sep>\d{3}(?!\d)` at this position. -/
def smallAt (sep : Char) : List Char → Bool
  | c :: s :: a :: b :: d :: rest =>
    isDigit c && s = sep && isDigit a && isDigit b && isDigit d &&
      (match rest with
       | [] => true
       | x :: _ => !isDigit x)
  | _ => false

/-- `re.search(r'\d{1,3}<sep>\d{3}(?!\d)', line)`: a single 3-digit
group (e.g. `10.000`). -/
def hasSmallGroup (sep : Char) : List Char → Bool
  | [] => false
  | c :: rest => smallAt sep (c :: rest) || hasSmallGroup sep rest

/-- Consume as many `sep\d{3}` groups as possible (the greedy
`(?:<sep>\d{3})+` after the leading digits); returns the consumed
characters and the rest. -/
def takeGroups (sep : Char) : List Char → List Char × List Char
  | s :: a :: b :: c :: rest =>
    if s = sep && isDigit a && isDigit b && isDigit c then
      let (g, r) := takeGroups sep rest
      (s :: a :: b :: c :: g, r)
    else ([], s :: a :: b :: c :: rest)
  | cs => ([], cs)

/-- Try the leading `\d{1,3}` of a token at lengths `k, k-1, ..., 1`
(greedy) followed by at least one `sep\d{3}` group. -/
def numTokenTry (sep : Char) (cs : List Char) : Nat → Option (List Char × List Char)
  | 0 => none
  | k + 1 =>
    let pre := cs.take (k + 1)
    if pre.length = k + 1 && pre.all (isDigit ·) then
      let (g, r) := takeGroups sep (cs.drop (k + 1))
      if g.isEmpty then numTokenTry sep cs k else some (pre ++ g, r)
    else numTokenTry sep cs k

/-- One token of `re.findall(r'\d{1,3}(?:<sep>\d{3})+', ...)` at this
position, with the rest of the subject after it. -/
def numTokenAt (sep : Char) (cs : List Char) : Option (List Char × List Char) :=
  numTokenTry sep cs 3

/-- Worker for `findallNums` (fuel bounds the scan; every step advances
at least one character). -/
def findallNumsGo (sep : Char) : Nat → List Char → List (List Char)
  | 0, _ => []
  | fuel + 1, cs =>
    match cs with
    | [] => []
    | c :: rest =>
      match numTokenAt sep (c :: rest) with
      | some (tok, after) => tok :: findallNumsGo sep fuel after
      | none => findallNumsGo sep fuel rest

/-- `re.findall(r'\d{1,3}(?:<sep>\d{3})+', line)`: left-to-right
non-overlapping scan. -/
def findallNums (sep : Char) (cs : List Char) : List (List Char) :=
  findallNumsGo sep (cs.length + 1) cs

/-- `len(n.replace(sep, ''))`: digits captured by one token. -/
def tokenDigits (sep : Char) (tok : List Char) : Nat :=
  (tok.filter (· ≠ sep)).length

/-- `sum(len(n.replace(sep, '')) for n in ns)`. -/
def totalDigits (sep : Char) (ns : List (List Char)) : Nat :=
  (ns.map (tokenDigits sep)).sum

/-- Numeric value of a digit string (`int(...)`). -/
def digitsVal (ds : List Char) : Nat :=
  ds.foldl (fun v c => v * 10 + (c.toNat - '0'.toNat)) 0

/-- `int(tok.replace(sep, ''))`. -/
def tokenVal (sep : Char) (tok : List Char) : Nat :=
  digitsVal (tok.filter (· ≠ sep))

/-- Separator resolution of `extract_modal_saham_row_v2`
(lines 397-449): decides the thousands separator, the decimal separator
and the list of thousand-grouped number tokens, or fails. -/
def detect_separator (line : List Char) :
    Option (Char × Char × List (List Char)) :=
  let dotQ := hasRun '.' line
  let commaQ := hasRun ',' line
  if dotQ && !commaQ then
    some ('.', ',', findallNums '.' line)
  else if commaQ && !dotQ then
    some (',', '.', findallNums ',' line)
  else if dotQ && commaQ then
    let dot_nums := findallNums '.' line
    let comma_nums := findallNums ',' line
    let dot_digits := totalDigits '.' dot_nums
    let comma_digits := totalDigits ',' comma_nums
    if comma_digits ≤ dot_digits then some ('.', ',', dot_nums)
    else some (',', '.', comma_nums)
  else if hasSmallGroup '.' line then
    some ('.', ',', findallNums '.' line)
  else if hasSmallGroup ',' line then
    some (',', '.', findallNums ',' line)
  else none

/-! ### Percentage matching -/

/-- Match of `(\d{1,3}),(\d{2,4})(?:\s*%)?` at this position; returns
the two captured groups.  The leading `\d{1,3}` must be followed by the
comma, so at a given start it can succeed only by consuming the whole
(≤3 digit) run. -/
def pctCommaAt (cs : List Char) : Option (List Char × List Char) :=
  let r := cs.takeWhile (isDigit ·)
  if r.isEmpty || 3 < r.length then none
  else
    match cs.drop r.length with
    | ',' :: rest =>
      let dp := rest.takeWhile (isDigit ·)
      if 2 ≤ dp.length then some (r, dp.take 4) else none
    | _ => none

/-- Does `(?!\d{3})` fail here (i.e. three digits follow)? -/
def threeDigitsNext : List Char → Bool
  | a :: b :: c :: _ => isDigit a && isDigit b && isDigit c
  | _ => false

/-- After the decimal digits: try the greedy optional `\s*%` and then
the `(?!\d{3})` lookahead, in backtracking order. -/
def pctDotTail (after : List Char) : Bool :=
  let ws := after.takeWhile (isWS ·)
  let afterWS := after.drop ws.length
  match afterWS with
  | '%' :: t => !threeDigitsNext t || !threeDigitsNext after
  | _ => !threeDigitsNext after

/-- Try decimal-group lengths `m, m-1, ..., 2` (greedy) for
`(\d{1,3})\.(\d{2,4})(?:\s*%)?(?!\d{3})`. -/
def pctDotTry (r rest : List Char) : Nat → Option (List Char × List Char)
  | 0 => none
  | 1 => none
  | m + 2 =>
    let dp := rest.take (m + 2)
    if pctDotTail (rest.drop (m + 2)) then some (r, dp)
    else pctDotTry r rest (m + 1)

/-- Match of `(\d{1,3})\.(\d{2,4})(?:\s*%)?(?!\d{3})` at this
position. -/
def pctDotAt (cs : List Char) : Option (List Char × List Char) :=
  let r := cs.takeWhile (isDigit ·)
  if r.isEmpty || 3 < r.length then none
  else
    match cs.drop r.length with
    | '.' :: rest =>
      let run2 := rest.takeWhile (isDigit ·)
      pctDotTry r rest (min 4 run2.length)
    | _ => none

/-- Left-to-right `re.search` scan for an option-valued matcher. -/
def scanO {α : Type} (f : List Char → Option α) : List Char → Option α
  | [] => f []
  | c :: rest =>
    match f (c :: rest) with
    | some x => some x
    | none => scanO f rest

/-- The percentage search of lines 456-459: groups `(int, dec)` of the
first percentage-shaped number under the detected decimal separator. -/
def pct_search (decimal_sep : Char) (line : List Char) :
    Option (List Char × List Char) :=
  if decimal_sep = ',' then scanO pctCommaAt line else scanO pctDotAt line

/-- Rational value of `float(f"{ip}.{dp}")` for digit strings. -/
def pctVal (ip dp : List Char) : ℚ :=
  mkRat (digitsVal ip * 10 ^ dp.length + digitsVal dp) (10 ^ dp.length)

/-- Percentage post-processing of `extract_modal_saham_row_v2`
(lines 464-477): keep full precision for `0.0xxx`-shaped values,
otherwise truncate the decimal string to two digits. -/
def modal_percentage (ip dp : List Char) : ℚ :=
  if ip = ['0'] && dp.take 1 = ['0'] then pctVal ip dp
  else if 2 < dp.length then pctVal ip (dp.take 2)
  else pctVal ip dp

/-- Body of the page-selection loop (lines 149-194): decides whether the
page is selected and with which strategy. -/
def classify_page (text : List Char) : Option PageKind :=
  if is_toc text then none
  else if is_sales_page text then none
  else
    let has_modal_saham_section :=
      has_modal_saham_header text && !is_modal_saham_continuation text
    if has_modal_saham_section && has_pemegang_saham text then
      some PageKind.modal_saham
    else if has_susunan_in_page text && has_shareholder_data text then
      some PageKind.susunan
    else if has_shareholder_data text && has_pemegang_saham text
            && has_persentase text then
      some PageKind.susunan
    else none

/-! ## `clean_shareholder_name_v2` (lines 545-599) -/

/-- Case-insensitive list equality. -/
def eqCI (a b : List Char) : Bool := lowerStr a = lowerStr b

/-- First position (if any) at which the matcher matches. -/
def findPos (m : M) : List Char → Option Nat
  | [] => if mHere m [] then some 0 else none
  | c :: rest =>
    if mHere m (c :: rest) then some 0
    else (findPos m rest).map (· + 1)

/-- `re.sub(pattern, '', s)`: replace every non-overlapping match by
the empty string, scanning left to right, the preferred (greedy) match
first.  Zero-width matches advance one character (none of the patterns
used here can match the empty string). -/
def mSubAll (m : M) : Nat → List Char → List Char
  | 0, cs => cs
  | fuel + 1, cs =>
    match (m cs).head? with
    | some rest =>
      if rest.length < cs.length then mSubAll m fuel rest
      else
        match cs with
        | [] => []
        | c :: t => c :: mSubAll m fuel t
    | none =>
      match cs with
      | [] => []
      | c :: t => c :: mSubAll m fuel t

def subAll (m : M) (cs : List Char) : List Char := mSubAll m (cs.length + 1) cs

/-- `re.sub(r'\s*\(?\s*qq\.?\s*[^)]*\)?\s*', '', name, flags=re.IGNORECASE)`:
custodian (`qq.`) annotations. -/
def qqMatcher : M :=
  mCat [mWS0, mOpt (mLitCS (L "(")), mWS0, mLit (L "qq"), mOpt (mLitCS (L ".")),
        mWS0, mStarCh (· ≠ ')'), mOpt (mLitCS (L ")")), mWS0]

/-- End-anchored `re.sub(p, '', name)` for a pattern that reaches the
end of the string: drop from the first position where it matches. -/
def subTrailing (m : M) (cs : List Char) : List Char :=
  match findPos m cs with
  | some i => cs.take i
  | none => cs

/-- `\s*\([^)]*<word>[^)]*\)\s*$` (for `below` and `bawah`). -/
def trailingParenMatcher (word : List Char) : M :=
  mCat [mWS0, mLitCS (L "("), mStarCh (· ≠ ')'), mLit word,
        mStarCh (· ≠ ')'), mLitCS (L ")"), mWS0, mEnd]

/-- Does `g` have the shape of group 1 of
`^(PT\s+[A-Za-z\s]+?)`, i.e. `PT`, one or more whitespace, then at
least one `[A-Za-z\s]` character? -/
def ptGroupShape (g : List Char) : Bool :=
  match g with
  | p :: t :: w :: rest =>
    ciEq p 'P' && ciEq t 'T' && isWS w &&
      !rest.isEmpty && (rest.all fun c => isLetter c || isWS c)
  | _ => false

/-- For group-1 length `k`: try the whitespace width of the following
`\s+` greedily (`j = wsMax, ..., 1`) and check the case-insensitive
back-reference `\1`. -/
def ptDupTryWS (name g1 : List Char) (k : Nat) : Nat → Option (List Char)
  | 0 => none
  | j + 1 =>
    let afterWS := name.drop (k + (j + 1))
    if eqCI (afterWS.take k) g1 then
      some (g1 ++ afterWS.drop k)
    else ptDupTryWS name g1 k j

/-- Lazy group 1 of `^(PT\s+[A-Za-z\s]+?)\s+\1(.*)$`: try group-1
lengths `k = 1, 2, ...` ascending; on a hit return
`group(1) + group(2)`. -/
def ptDupTryLen (name : List Char) (fuel : Nat) (k : Nat) : Option (List Char) :=
  match fuel with
  | 0 => none
  | fuel + 1 =>
    if name.length < k then none
    else
      let g1 := name.take k
      let wsRun := ((name.drop k).takeWhile (isWS ·)).length
      match (if ptGroupShape g1 then ptDupTryWS name g1 k wsRun else none) with
      | some r => some r
      | none => ptDupTryLen name fuel (k + 1)

/-- `re.match(r'^(PT\s+[A-Za-z\s]+?)\s+\1(.*)$', name, re.IGNORECASE)`
followed by `group(1) + group(2)` and `strip()`; `none` when the
pattern does not match. -/
def ptDupCollapse (name : List Char) : Option (List Char) :=
  (ptDupTryLen name (name.length + 1) 1).map pyStrip

/-- The near-half duplicate scan of lines 578-594: split points
`len//2 - 1, len//2, len//2 + 1` (only those with
`2 <= split_at < len(words) - 1`), first hit wins. -/
def dupSplitScan (name : List Char) : List Char :=
  let words := pyWords name
  if 4 ≤ words.length then
    let n := words.length
    let tryAt (split_at : Nat) : Option (List Char) :=
      if 2 ≤ split_at && split_at < n - 1 then
        let first_half := joinSpace (words.take split_at)
        let second_part := joinSpace (words.drop split_at)
        if startsCI second_part first_half then
          let remainder := pyStrip (second_part.drop first_half.length)
          some (first_half ++ (if remainder.isEmpty then [] else ' ' :: remainder))
        else if eqCI first_half second_part then some first_half
        else none
      else none
    match tryAt (n / 2 - 1) with
    | some r => r
    | none =>
      match tryAt (n / 2) with
      | some r => r
      | none =>
        match tryAt (n / 2 + 1) with
        | some r => r
        | none => name
  else name

/-- `clean_shareholder_name_v2` (lines 545-599). -/
def clean_shareholder_name_v2 (name0 : List Char) : List Char :=
  if name0.isEmpty then []
  else
    let name := collapseWS name0
    let name := pyStripChars (L ".,;:- ") name
    let name := subAll qqMatcher name
    let name := subTrailing (trailingParenMatcher (L "below")) name
    let name := subTrailing (trailingParenMatcher (L "bawah")) name
    if mHere (mCat [mLit (L "di"), mWS0, mLit (L "bawah"), mWS0, mLitCS (L "5")]) name then
      L "Masyarakat"
    else
      let name :=
        match ptDupCollapse name with
        | some r => r
        | none => name
      let name := dupSplitScan name
      pyStripChars (L ".,;:-)( ") name

/-! ## `extract_modal_saham_row_v2` (lines 338-542) -/

/-- The `skip_patterns` list (lines 356-372), each its own
`re.search(p, line, re.IGNORECASE)`. -/
def modal_skip (line : List Char) : Bool :=
  -- r'^(?:pada|berdasarkan|dari|yang|sesuai|dengan|melalui|sebesar|sebanyak)'
  mHere (mAlts ((["pada", "berdasarkan", "dari", "yang", "sesuai", "dengan",
                  "melalui", "sebesar", "sebanyak"].map (fun w => mLit (L w))))) line ||
  -- r'^(?:based|from|according|through|in|the|a|an)\s'
  mHere (mCat [mAlts (["based", "from", "according", "through", "in", "the",
                       "a", "an"].map (fun w => mLit (L w))), mCh isWS]) line ||
  -- r'penawaran\s*umum|public\s*offering'
  mSearch (mAlt (mCat [mLit (L "penawaran"), mWS0, mLit (L "umum")])
               (mCat [mLit (L "public"), mWS0, mLit (L "offering")])) line ||
  -- r'modal\s*dasar|authorized\s*capital'
  mSearch (mAlt (mCat [mLit (L "modal"), mWS0, mLit (L "dasar")])
               (mCat [mLit (L "authorized"), mWS0, mLit (L "capital")])) line ||
  -- r'modal\s*ditempatkan|issued\s*capital'
  mSearch (mAlt (mCat [mLit (L "modal"), mWS0, mLit (L "ditempatkan")])
               (mCat [mLit (L "issued"), mWS0, mLit (L "capital")])) line ||
  -- r'modal\s*disetor|paid.*capital'
  mSearch (mAlt (mCat [mLit (L "modal"), mWS0, mLit (L "disetor")])
               (mCat [mLit (L "paid"), mStarCh isDotChar, mLit (L "capital")])) line ||
  -- r'saham\s*biasa|common\s*stock'
  mSearch (mAlt (mCat [mLit (L "saham"), mWS0, mLit (L "biasa")])
               (mCat [mLit (L "common"), mWS0, mLit (L "stock")])) line ||
  -- r'nilai\s*nominal|par\s*value'
  mSearch (mAlt (mCat [mLit (L "nilai"), mWS0, mLit (L "nominal")])
               (mCat [mLit (L "par"), mWS0, mLit (L "value")])) line ||
  -- r'waran\s*seri|warrant.*series'
  mSearch (mAlt (mCat [mLit (L "waran"), mWS0, mLit (L "seri")])
               (mCat [mLit (L "warrant"), mStarCh isDotChar, mLit (L "series")])) line ||
  -- r'^c\.\s|^d\.\s|^[a-e]\)'
  mHere (mAlts [mCat [mLit (L "c."), mCh isWS], mCat [mLit (L "d."), mCh isWS],
                mCat [mCh (fun c => ('a' ≤ lowerChar c && lowerChar c ≤ 'e' : Bool)),
                      mLitCS (L ")")]]) line ||
  -- r'KONSOLIDASIAN|CONSOLIDATED'
  mSearch (mAlt (mLit (L "KONSOLIDASIAN")) (mLit (L "CONSOLIDATED"))) line ||
  -- r'rencana\s*perseroan|company.*plan'
  mSearch (mAlt (mCat [mLit (L "rencana"), mWS0, mLit (L "perseroan")])
               (mCat [mLit (L "company"), mStarCh isDotChar, mLit (L "plan")])) line ||
  -- r'PMTHMETD|PMHMETD'
  mSearch (mAlt (mLit (L "PMTHMETD")) (mLit (L "PMHMETD"))) line ||
  -- r'FINANCIAL\s*STATEMENTS'
  mSearch (mCat [mLit (L "FINANCIAL"), mWS0, mLit (L "STATEMENTS")]) line ||
  -- r'konteks|context'
  mSearch (mAlt (mLit (L "konteks")) (mLit (L "context"))) line

/-- The `valid_start_patterns` list (lines 379-389), each
`re.match(p, line, re.IGNORECASE)`. -/
def modal_valid_start (line : List Char) : Bool :=
  -- r'^PT\s+[A-Z]'
  mHere (mCat [mLit (L "PT"), mWS1, mCh isLetter]) line ||
  -- r'^Masyarakat'
  mHere (mLit (L "Masyarakat")) line ||
  -- r'^[A-Z][a-z]+\s+[A-Z][a-z]+\s+\d'  (all-letter classes under IGNORECASE)
  mHere (mCat [mCh isLetter, mPlusCh isLetter, mWS1, mCh isLetter,
               mPlusCh isLetter, mWS1, mCh isDigit]) line ||
  -- r'^[A-Z][a-z]+wave|^Zurich'
  mHere (mAlt (mCat [mCh isLetter, mPlusCh isLetter, mLit (L "wave")])
             (mLit (L "Zurich"))) line ||
  -- r'^Nusantara\s+\d'
  mHere (mCat [mLit (L "Nusantara"), mWS1, mCh isDigit]) line ||
  -- r'^kepemilikan\s+di\s+bawah'
  mHere (mCat [mLit (L "kepemilikan"), mWS1, mLit (L "di"), mWS1, mLit (L "bawah")]) line ||
  -- r'^International\s+Ltd'
  mHere (mCat [mLit (L "International"), mWS1, mLit (L "Ltd")]) line ||
  -- r'^[A-Z][a-z]+\s+[A-Z][a-z]+\s+Pte'
  mHere (mCat [mCh isLetter, mPlusCh isLetter, mWS1, mCh isLetter,
               mPlusCh isLetter, mWS1, mLit (L "Pte")]) line ||
  -- r'^[A-Z][a-z]+\s+[A-Z][a-z]+\s+Ltd'
  mHere (mCat [mCh isLetter, mPlusCh isLetter, mWS1, mCh isLetter,
               mPlusCh isLetter, mWS1, mLit (L "Ltd")]) line

/-- Name resolution of lines 497-526 from the text before the first
number (`name_part`) and the pending fragment (`namePfx`). -/
def modal_resolve_name (name_part : List Char) (namePfx : Option (List Char)) :
    Option (List Char) :=
  -- re.search(r'kepemilikan\s+di\s+bawah', name_part, re.IGNORECASE)
  if mSearch (mCat [mLit (L "kepemilikan"), mWS1, mLit (L "di"), mWS1,
                    mLit (L "bawah")]) name_part then
    some (L "Masyarakat")
  -- re.search(r'Masyarakat', name_part, re.IGNORECASE)
  else if containsCI name_part (L "masyarakat") then
    some (L "Masyarakat")
  -- re.match(r'^[A-Z][a-z]+\s+[A-Z][a-z]+$', name_part)  (case-sensitive)
  else if mHere (mCat [mCh isUpper, mPlusCh isLower, mWS1, mCh isUpper,
                       mPlusCh isLower, mEnd]) name_part then
    some name_part
  -- re.search(r'^PT\s+', name_part, re.IGNORECASE)
  else if mHere (mCat [mLit (L "PT"), mWS1]) name_part then
    some name_part
  else
    match namePfx with
    | some pfx =>
      if !name_part.isEmpty then some (pfx ++ ' ' :: name_part)
      -- re.search(r'Ltd\.?\)?$|Limited\)?$', name_part, re.IGNORECASE)
      else if mSearch (mAlt
          (mCat [mLit (L "Ltd"), mOpt (mLitCS (L ".")), mOpt (mLitCS (L ")")), mEnd])
          (mCat [mLit (L "Limited"), mOpt (mLitCS (L ")")), mEnd])) name_part then
        some name_part
      else some pfx
    | none =>
      if mSearch (mAlt
          (mCat [mLit (L "Ltd"), mOpt (mLitCS (L ".")), mOpt (mLitCS (L ")")), mEnd])
          (mCat [mLit (L "Limited"), mOpt (mLitCS (L ")")), mEnd])) name_part then
        some name_part
      else if !name_part.isEmpty && 3 < name_part.length then some name_part
      else none

/-- One extracted shareholder row (`{'tanggal', 'pemegang_saham',
'jumlah_saham', 'persentase'}`). -/
structure Shareholder where
  tanggal : List Char
  pemegang_saham : List Char
  jumlah_saham : Nat
  persentase : ℚ
deriving DecidableEq, Repr

/-- `extract_modal_saham_row_v2` (lines 338-542). -/
def extract_modal_saham_row_v2 (line : List Char) (current_date : List Char)
    (namePfx : Option (List Char)) : Option Shareholder :=
  if modal_skip line then none
  else if !modal_valid_start line && namePfx.isNone then none
  else
    match detect_separator line with
    | none => none
    | some (thousand_sep, decimal_sep, numbers) =>
      match numbers with
      | [] => none
      | num0 :: _ =>
        match pct_search decimal_sep line with
        | none => none
        | some (pct_int, pct_dec) =>
          let percentage := modal_percentage pct_int pct_dec
          if percentage < 0 ∨ 100 < percentage then none
          else
            let shares := tokenVal thousand_sep num0
            if shares < 1000 then none
            else
              let first_num_pos := (findSub line num0).getD 0
              let name_part :=
                if 0 < first_num_pos then pyStrip (line.take first_num_pos) else []
              match modal_resolve_name name_part namePfx with
              | none => none
              | some name =>
                if name.length < 4 then none
                else
                  let name := clean_shareholder_name_v2 name
                  if name.isEmpty || name.length < 4 then none
                  else some ⟨current_date, name, shares, percentage⟩

/-! ## `parse_modal_saham_format` (lines 230-335) -/

/-- `text.split('\n')`. -/
def splitNL : List Char → List (List Char)
  | [] => [[]]
  | c :: rest =>
    match splitNL rest with
    | [] => [[]]
    | l :: ls => if c = '\n' then [] :: l :: ls else (c :: l) :: ls

/-- Zero-width `\b` when the previous character is a word character:
succeed iff the next character is not one. -/
def mNoWordNext : M := fun cs =>
  match cs with
  | [] => [[]]
  | c :: _ => if isWord c then [] else [cs]

/-- `date_section_pattern.match(line)` (lines 249-252), one `(day,
months)` alternative: on success the new `current_date`
(`f"{group(1).strip()} {group(2)}"`). -/
def dateHeadTry (day : List Char) (months : List (List Char))
    (line : List Char) : Option (List Char) :=
  if startsCS line day then
    let r1 := line.drop day.length
    let ws1 := r1.takeWhile (isWS ·)
    let r2 := r1.drop ws1.length
    match months.find? (fun mo => startsCI r2 mo) with
    | none => none
    | some mo =>
      let g1 := line.take (day.length + ws1.length + mo.length)
      let r3 := r2.drop mo.length
      let r4 := r3.drop ((r3.takeWhile (isWS ·)).length)
      let yr := r4.take 4
      if yr.length = 4 && yr.all (isDigit ·) then
        let r5 := r4.drop 4
        let r6 := r5.drop ((r5.takeWhile (isWS ·)).length)
        if r6.isEmpty || r6.take 1 = ['/'] then
          some (pyStrip g1 ++ ' ' :: yr)
        else none
      else none
  else none

/-- `^(31\s*(?:Maret|Desember)|30\s*(?:Juni|September))\s*(\d{4})(?:\s*/|\s*$)`
under `re.IGNORECASE`, applied with `.match`. -/
def date_section_header (line : List Char) : Option (List Char) :=
  match dateHeadTry (L "31") [L "Maret", L "Desember"] line with
  | some d => some d
  | none => dateHeadTry (L "30") [L "Juni", L "September"] line

/-- `re.search(r'^(pemegang\s*saham|shareholders?\b|jumlah\s*saham|number\s*of|percentage|persentase)', line, re.IGNORECASE)` -/
def modal_header_skip (line : List Char) : Bool :=
  mHere (mAlts
    [ mCat [mLit (L "pemegang"), mWS0, mLit (L "saham")]
    , mCat [mLit (L "shareholder"), mOpt (mLit (L "s")), mNoWordNext]
    , mCat [mLit (L "jumlah"), mWS0, mLit (L "saham")]
    , mCat [mLit (L "number"), mWS0, mLit (L "of")]
    , mLit (L "percentage"), mLit (L "persentase") ]) line

/-- `re.search(r'^(sub-?jumlah|sub-?total|jumlah\b|total\b)', line, re.IGNORECASE)` -/
def modal_total_skip (line : List Char) : Bool :=
  mHere (mAlts
    [ mCat [mLit (L "sub"), mOpt (mLitCS (L "-")), mLit (L "jumlah")]
    , mCat [mLit (L "sub"), mOpt (mLitCS (L "-")), mLit (L "total")]
    , mCat [mLit (L "jumlah"), mNoWordNext]
    , mCat [mLit (L "total"), mNoWordNext] ]) line

/-- `re.search(r'^(saham\s*seri|series\s*[ab])', line, re.IGNORECASE)` -/
def modal_series_skip (line : List Char) : Bool :=
  mHere (mAlt (mCat [mLit (L "saham"), mWS0, mLit (L "seri")])
             (mCat [mLit (L "series"), mWS0,
                    mCh (fun c => lowerChar c = 'a' || lowerChar c = 'b')])) line

/-- `re.search(r'^(catatan|note|berdasarkan|based on|komposisi|composition|nama\s*pemegang)', line, re.IGNORECASE)` -/
def modal_notes_skip (line : List Char) : Bool :=
  mHere (mAlts
    [ mLit (L "catatan"), mLit (L "note"), mLit (L "berdasarkan")
    , mLit (L "based on"), mLit (L "komposisi"), mLit (L "composition")
    , mCat [mLit (L "nama"), mWS0, mLit (L "pemegang")] ]) line

/-- `re.search(r'\d{1,3}[.,]\d{3}', line)`: the `has_numbers` test. -/
def modal_has_numbers : List Char → Bool
  | c :: s :: a :: b :: d :: rest =>
    (isDigit c && isSep s && isDigit a && isDigit b && isDigit d) ||
      modal_has_numbers (s :: a :: b :: d :: rest)
  | _ => false

/-- The pending-name update of the `not has_numbers` branch
(lines 306-325). -/
def modal_pending_update (line : List Char) (pending : Option (List Char)) :
    Option (List Char) :=
  -- re.match(r'^PT\s+[A-Za-z][A-Za-z\s]+$', line)  (case-sensitive)
  if mHere (mCat [mLitCS (L "PT"), mWS1, mCh isLetter,
                  mPlusCh (fun c => isLetter c || isWS c), mEnd]) line then
    some line
  -- re.match(r'^Masyarakat$', line, re.IGNORECASE)
  else if mHere (mCat [mLit (L "Masyarakat"), mEnd]) line then
    some (L "Masyarakat")
  -- pending == "Masyarakat" and re.match(r'^\(masing-masing', line, re.IGNORECASE)
  else if pending = some (L "Masyarakat") && startsCI line (L "(masing-masing") then
    pending
  -- pending and re.match(r'^\([qQ]{2}\.', line)
  else if pending.isSome &&
      mHere (mCat [mLitCS (L "("), mCh (fun c => c = 'q' || c = 'Q'),
                   mCh (fun c => c = 'q' || c = 'Q'), mLitCS (L ".")]) line then
    (pending.map (fun p => p ++ ' ' :: line))
  -- re.match(r'^[A-Za-z][A-Za-z\s]+$', line) and len(line) > 3
  else if mHere (mCat [mCh isLetter, mPlusCh (fun c => isLetter c || isWS c), mEnd]) line
      && 3 < line.length then
    if pending.isNone then some line else pending
  else pending

/-- One iteration of the line loop of `parse_modal_saham_format`:
from `(current_date, pending)` and a raw line to the new state and the
emitted record, if any. -/
def modal_step (st : List Char × Option (List Char)) (rawLine : List Char) :
    (List Char × Option (List Char)) × Option Shareholder :=
  let (current_date, pending) := st
  let line := pyStrip rawLine
  if line.isEmpty then ((current_date, none), none)
  else
    match date_section_header line with
    | some d => ((d, none), none)
    | none =>
      if modal_header_skip line then ((current_date, none), none)
      else if modal_total_skip line then ((current_date, none), none)
      else if modal_series_skip line then ((current_date, none), none)
      else if modal_notes_skip line then ((current_date, none), none)
      else if !modal_has_numbers line then
        ((current_date, modal_pending_update line pending), none)
      else
        ((current_date, none), extract_modal_saham_row_v2 line current_date pending)

/-- Fold of `modal_step` over the lines, collecting emitted records. -/
def modal_run (st : List Char × Option (List Char)) :
    List (List Char) → List Shareholder
  | [] => []
  | l :: ls =>
    match modal_step st l with
    | (st', some r) => r :: modal_run st' ls
    | (st', none) => modal_run st' ls

/-- `parse_modal_saham_format(text, dates)` (lines 230-335). -/
def parse_modal_saham_format (text : List Char) (dates : List (List Char)) :
    List Shareholder :=
  let current_date := (dates.head?).getD (L "Unknown")
  modal_run (current_date, none) (splitNL text)

/-! ## `extract_shareholder_single_row_v2` (lines 927-1090) -/

/-- `re.search(r'\d{1,3}(?:\.\d{3}){1,}', line)`: the `has_shares`
test — existence of a digit directly followed by `.ddd`. -/
def generic_has_shares : List Char → Bool
  | c :: s :: a :: b :: d :: rest =>
    (isDigit c && s = '.' && isDigit a && isDigit b && isDigit d) ||
      generic_has_shares (s :: a :: b :: d :: rest)
  | _ => false

/-- Match of `\d{1,2}[,\.]\d{2,4}\s*%` at one position: the run of
digits before the separator must be consumed whole (at most 2), the
decimal run whole (2 to 4), then optional whitespace and `%`. -/
def genericPctShapeAt (cs : List Char) : Bool :=
  let r := cs.takeWhile (isDigit ·)
  if r.isEmpty || 2 < r.length then false
  else
    match cs.drop r.length with
    | s :: rest =>
      if isSep s then
        let dp := rest.takeWhile (isDigit ·)
        if 2 ≤ dp.length && dp.length ≤ 4 then
          let after := rest.drop dp.length
          (after.drop ((after.takeWhile (isWS ·)).length)).take 1 = ['%']
        else false
      else false
    | [] => false

/-- `re.search(r'\d{1,2}[,\.]\d{2,4}\s*%', line)`: the
`has_percentage` test. -/
def generic_has_percentage : List Char → Bool
  | [] => genericPctShapeAt []
  | c :: rest => genericPctShapeAt (c :: rest) || generic_has_percentage rest

/-- The `shareholder_patterns` of lines 940-955, in order; every
pattern captures its whole match, so the captured name is the consumed
prefix. -/
def generic_name_matchers : List M :=
  [ -- r'^(PT\s+[A-Za-z][A-Za-z\s]+)'
    mCat [mLit (L "PT"), mWS1, mCh isLetter, mPlusCh (fun c => isLetter c || isWS c)]
  , -- r'^((?:Bes|Goldwave|Zurich|Asia|Global|Pacific|UBS)\s*[A-Za-z\s]*(?:Trus|Capital|Assets)?\s*(?:Pte\.?\s*)?Ltd\.?)'
    mCat [ mAlts (["Bes", "Goldwave", "Zurich", "Asia", "Global", "Pacific",
                   "UBS"].map (fun w => mLit (L w)))
         , mWS0, mStarCh (fun c => isLetter c || isWS c)
         , mOpt (mAlts [mLit (L "Trus"), mLit (L "Capital"), mLit (L "Assets")])
         , mWS0, mOpt (mCat [mLit (L "Pte"), mOpt (mLitCS (L ".")), mWS0])
         , mLit (L "Ltd"), mOpt (mLitCS (L ".")) ]
  , -- r'^([A-Za-z][A-Za-z\s]+(?:Pte\.?\s*Ltd\.?|Ltd\.?|Limited))'
    mCat [ mCh isLetter, mPlusCh (fun c => isLetter c || isWS c)
         , mAlts [ mCat [mLit (L "Pte"), mOpt (mLitCS (L ".")), mWS0,
                         mLit (L "Ltd"), mOpt (mLitCS (L "."))]
                 , mCat [mLit (L "Ltd"), mOpt (mLitCS (L "."))]
                 , mLit (L "Limited") ] ]
  , -- r'^(Masyarakat)'
    mLit (L "Masyarakat")
  , -- r'^(Public)'
    mLit (L "Public")
  , -- r'^((?:Tn\.|Mr\.|Ny\.|Mrs\.)\s+[A-Za-z][A-Za-z\s\.]+)'
    mCat [ mAlts [mLit (L "Tn."), mLit (L "Mr."), mLit (L "Ny."), mLit (L "Mrs.")]
         , mWS1, mCh isLetter
         , mPlusCh (fun c => isLetter c || isWS c || c = '.') ]
  , -- r'^([A-Z][a-z]+(?:\s+[A-Z][a-z]+)*)'  (all-letter classes under IGNORECASE)
    mCat [ mCh isLetter, mPlusCh isLetter
         , mStar (mCat [mWS1, mCh isLetter, mPlusCh isLetter]) ] ]

/-- First matcher of the list that matches a prefix of the line;
returns the match end (`match.end()`). -/
def firstNameMatch : List M → List Char → Option Nat
  | [], _ => none
  | m :: ms, line =>
    match mHereLen m line with
    | some n => some n
    | none => firstNameMatch ms line

/-- `re.search(r'(\d{1,3}(?:\.\d{3})+)', line)` with its start
position: the fallback name boundary (line 997). -/
def firstDotToken (line : List Char) : Option (Nat × List Char) :=
  let rec go (i : Nat) : List Char → Option (Nat × List Char)
    | [] => none
    | c :: rest =>
      match numTokenAt '.' (c :: rest) with
      | some (tok, _) => some (i, tok)
      | none => go (i + 1) rest
  go 0 line

/-- `re.search(r'\b(\d{1,3}(?:\.\d{3})+)\b', line)` (line 1050): like
`firstDotToken` but with word boundaries on both sides; the trailing
boundary backtracks over the group count.  Returns start and token. -/
def shareTokenHere (cs : List Char) (after1 : List Char → Bool) : Option (List Char) :=
  match numTokenAt '.' cs with
  | none => none
  | some (tok, _) =>
    -- drop trailing 4-character groups until the boundary holds
    let rec shrink (t : List Char) (fuel : Nat) : Option (List Char) :=
      match fuel with
      | 0 => none
      | fuel + 1 =>
        if after1 (cs.drop t.length) then some t
        else
          -- drop the last `\.\d{3}` group; a token keeps at least one
          -- group (length ≥ 5), shorter means the `+` is exhausted
          let t' := t.take (t.length - 4)
          if 5 ≤ t'.length then shrink t' fuel else none
    shrink tok (tok.length + 1)

def share_match (line : List Char) : Option (Nat × List Char) :=
  let boundaryAfter := fun (rest : List Char) =>
    match rest with
    | [] => true
    | c :: _ => !isWord c
  let rec go (i : Nat) (prev : Option Char) : List Char → Option (Nat × List Char)
    | [] => none
    | c :: rest =>
      let okBefore :=
        match prev with
        | none => true
        | some p => !isWord p
      match (if okBefore then shareTokenHere (c :: rest) boundaryAfter else none) with
      | some tok => some (i, tok)
      | none => go (i + 1) (some c) rest
  go 0 none line

/-- Percentage after the share count, first form
`(\d{1,3})[,.](\d{2,4})\s*%` (line 1064): both digit runs must be
consumed whole, then optional whitespace and `%`. -/
def pctAfterAt (cs : List Char) : Option (List Char × List Char) :=
  let r := cs.takeWhile (isDigit ·)
  if r.isEmpty || 3 < r.length then none
  else
    match cs.drop r.length with
    | s :: rest =>
      if isSep s then
        let dp := rest.takeWhile (isDigit ·)
        if 2 ≤ dp.length && dp.length ≤ 4 then
          let after := rest.drop dp.length
          if (after.drop ((after.takeWhile (isWS ·)).length)).take 1 = ['%'] then
            some (r, dp)
          else none
        else none
      else none
    | [] => none

/-- Fallback form `(\d{1,3})[,.](\d{2,4})\s+\d` (line 1067). -/
def pctAfterNoPctAt (cs : List Char) : Option (List Char × List Char) :=
  let r := cs.takeWhile (isDigit ·)
  if r.isEmpty || 3 < r.length then none
  else
    match cs.drop r.length with
    | s :: rest =>
      if isSep s then
        let dp := rest.takeWhile (isDigit ·)
        if 2 ≤ dp.length && dp.length ≤ 4 then
          let after := rest.drop dp.length
          let ws := after.takeWhile (isWS ·)
          if !ws.isEmpty && ((after.drop ws.length).take 1).all (isDigit ·)
              && !(after.drop ws.length).isEmpty then
            some (r, dp)
          else none
        else none
      else none
    | [] => none

/-- Python `round(x, 2)` modelled on `ℚ` (`round` is
round-half-up on rationals; the values this file evaluates it on are
never half-way between two hundredths, where the float-based Python
rounding could differ). -/
def pyRound2 (q : ℚ) : ℚ :=
  mkRat (Int.fdiv (2 * (q.num * 100) + (q.den : ℤ)) (2 * (q.den : ℤ))) 100

/-- Percentage post-processing of `extract_shareholder_single_row_v2`
(lines 1071-1078): parse, then round to 2 decimals only when the
decimal part has more than 2 digits and the value is at least 0.01. -/
def generic_percentage (ip dp : List Char) : ℚ :=
  let percentage := pctVal ip dp
  if 2 < dp.length && mkRat 1 100 ≤ percentage then pyRound2 percentage
  else percentage

/-- The `skip_keywords` list of line 1031. -/
def generic_skip_keywords : List (List Char) :=
  [L "asuransi", L "docking", L "direksi", L "komisaris", L "bahan bakar",
   L "sewa", L "peralatan", L "perlengkapan", L "kapal", L "kendaraan",
   L "deposit", L "belum jatuh", L "dikurangi", L "pembangunan",
   L "lainnya", L "issued", L "fully paid"]

/-- Name selection of lines 965-1002: either the special `Masyarakat`
cases, the pending-fragment continuation, the ordered pattern
catalogue, or the text before the first dotted number. -/
def generic_find_name (line : List Char) (namePfx : Option (List Char)) :
    Option (List Char) :=
  -- re.search(r'^kepemilikan\s+di\s+bawah|^ownership\)', line, re.IGNORECASE)
  if mHere (mAlt (mCat [mLit (L "kepemilikan"), mWS1, mLit (L "di"), mWS1,
                        mLit (L "bawah")])
               (mCat [mLit (L "ownership"), mLitCS (L ")")])) line then
    some (L "Masyarakat")
  else
    match namePfx with
    | some pfx =>
      -- re.search(r'^([A-Za-z][A-Za-z\s]*)', line)
      match mHereLen (mCat [mCh isLetter, mStarCh (fun c => isLetter c || isWS c)]) line with
      | some n => some (pfx ++ ' ' :: pyStrip (line.take n))
      | none => some pfx
    | none =>
      match firstNameMatch generic_name_matchers line with
      | some n => some (pyStrip (line.take n))
      | none =>
        match firstDotToken line with
        | some (start, _) =>
          let potential_name := pyStrip (line.take start)
          if !potential_name.isEmpty && potential_name.any (isLetter ·) then
            some potential_name
          else none
        | none => none

/-- Name cleaning of lines 1008-1024 (bilingual halves, punctuation,
`qq.` markers, empty and trailing parentheses). -/
def generic_clean_name (name0 : List Char) : List Char :=
  let name := collapseWS name0
  let words := pyWords name
  let name :=
    if 4 ≤ words.length then
      let half := words.length / 2
      let first_half := joinSpace (words.take half)
      let second_half := joinSpace (words.drop half)
      if eqCI first_half second_half then first_half else name
    else name
  let name := pyStripChars (L ".,;:-") name
  -- re.sub(r'\(?\s*qq\.?\s*', '', name, flags=re.IGNORECASE)
  let name := subAll (mCat [mOpt (mLitCS (L "(")), mWS0, mLit (L "qq"),
                            mOpt (mLitCS (L ".")), mWS0]) name
  -- re.sub(r'\(\s*\)', '', name)
  let name := subAll (mCat [mLitCS (L "("), mWS0, mLitCS (L ")")]) name
  -- re.sub(r'\s*\)\s*$', '', name)
  subTrailing (mCat [mWS0, mLitCS (L ")"), mWS0, mEnd]) name

/-- `extract_shareholder_single_row_v2` (lines 927-1090). -/
def extract_shareholder_single_row_v2 (line : List Char)
    (current_date : List Char) (namePfx : Option (List Char)) :
    Option Shareholder :=
  if !generic_has_shares line || !generic_has_percentage line then none
  else
    match generic_find_name line namePfx with
    | none => none
    | some name =>
      if name.length < 3 then none
      else
        let name := generic_clean_name name
        if startsCS name (L "di ") || startsCS name (L "kepemilikan")
            || startsCI name (L "jumlah") then none
        else if generic_skip_keywords.any (fun kw => containsCI name kw) then none
        else
          let name := pyStripChars (L ".,;:- ") name
          if !(name.take 1 |>.all fun c => isLetter c || c = '(') || name.isEmpty then none
          else if !name.any (isLetter ·) then none
          else if name.length < 5 then none
          else
            match share_match line with
            | none => none
            | some (start, tok) =>
              let shares := tokenVal '.' tok
              if shares < 1000 then none
              else
                let after_shares := line.drop (start + tok.length)
                match
                  (match scanO pctAfterAt after_shares with
                   | some g => some g
                   | none => scanO pctAfterNoPctAt after_shares) with
                | none => none
                | some (integer_part, decimal_part) =>
                  let percentage := generic_percentage integer_part decimal_part
                  if percentage ≤ 0 ∨ 100 < percentage then none
                  else some ⟨current_date, name, shares, percentage⟩

/-! ## Pipeline finalization (`extract_shareholders_from_pdf`,
lines 215-227): deduplication and sorting -/

/-- The identity key `(sh['tanggal'], sh['pemegang_saham'],
sh['jumlah_saham'])` of line 219. -/
def recKey (r : Shareholder) : List Char × List Char × Nat :=
  (r.tanggal, r.pemegang_saham, r.jumlah_saham)

/-- The dedup loop of lines 216-222, with the `seen` set as a list of
keys. -/
def dedupGo (seen : List (List Char × List Char × Nat)) :
    List Shareholder → List Shareholder
  | [] => []
  | s :: rest =>
    if recKey s ∈ seen then dedupGo seen rest
    else s :: dedupGo (recKey s :: seen) rest

/-- `unique_shareholders` after the dedup loop. -/
def remove_duplicates (l : List Shareholder) : List Shareholder :=
  dedupGo [] l

/-- Python `<` on strings: lexicographic on code points. -/
def strLt : List Char → List Char → Bool
  | [], [] => false
  | [], _ :: _ => true
  | _ :: _, [] => false
  | x :: xs, y :: ys => if x = y then strLt xs ys else decide (x < y)

/-- `key(a) >= key(b)` for `key=lambda x: (x['tanggal'],
-x['persentase'])` compared in reverse (descending) order: the
condition under which a stable descending sort puts `a` no later than
`b`. -/
def keyGe (a b : Shareholder) : Bool :=
  strLt b.tanggal a.tanggal ||
    (a.tanggal = b.tanggal && a.persentase ≤ b.persentase)

/-- Stable insertion for the descending key order (an element is
inserted before the first entry it is strictly-before-or-tied with, so
ties keep the original relative order). -/
def insortDesc (a : Shareholder) : List Shareholder → List Shareholder
  | [] => [a]
  | b :: l => if keyGe a b then a :: b :: l else b :: insortDesc a l

/-- `unique_shareholders.sort(key=lambda x: (x['tanggal'],
-x['persentase']), reverse=True)` (line 225): a stable sort into
descending `(tanggal, -persentase)` order. -/
def pySortRecords : List Shareholder → List Shareholder
  | [] => []
  | a :: l => insortDesc a (pySortRecords l)

/-- Lines 215-227: what `extract_shareholders_from_pdf` does to the
concatenated per-page records before returning them. -/
def finalize_records (all_shareholders : List Shareholder) : List Shareholder :=
  pySortRecords (remove_duplicates all_shareholders)

/-! ## Batch entry point (`extract_from_files`, lines 729-761)

The filesystem and the per-document extraction are the environment: an
identifier maps to `missing` (`os.path.exists` false), to the records
the pipeline extracts, or to a raised exception message. -/

/-- Outcome of looking up and processing one file name. -/
inductive FileOutcome where
  | missing
  | extracted (records : List Shareholder)
  | failure (msg : List Char)
deriving DecidableEq

/-- One entry of the batch result: the error branches carry
`'error'` and an empty `'shareholders'` list; the success branch
carries the records (and `'total'`, their length). -/
structure FileEntry where
  file_name : List Char
  error : Option (List Char)
  shareholders : List Shareholder
deriving DecidableEq, Repr

/-- The loop body of `extract_from_files` for one file name. -/
def entry_for (fs : List Char → FileOutcome) (file_name : List Char) : FileEntry :=
  match fs file_name with
  | FileOutcome.missing => ⟨file_name, some (L "File not found"), []⟩
  | FileOutcome.extracted rs => ⟨file_name, none, rs⟩
  | FileOutcome.failure msg => ⟨file_name, some msg, []⟩

/-- `extract_from_files(file_names)["results"]`. -/
def extract_from_files (fs : List Char → FileOutcome)
    (file_names : List (List Char)) : List FileEntry :=
  file_names.map (entry_for fs)

/-! ## Derived notions used by claim statements -/

/-- Sortedness in the specified output order: `reportDate`
non-increasing (string order) and `ownershipPercent` non-increasing
within equal dates. -/
def specSorted (l : List Shareholder) : Prop :=
  l.Pairwise (fun a b =>
    strLt a.tanggal b.tanggal = false ∧
      (a.tanggal = b.tanggal → b.persentase ≤ a.persentase))

/-! ## Theorems for the claims -/

/-- C5: under the structured-section strategy, the line
`"PT Abadi Kreasi Unggul"` (no digit groups, bare entity-name shape)
becomes a pending name fragment and yields no record, and the document
consisting of it followed by `"Nusantara 5.311.440.200 69,0717%"`
yields exactly one record, with holder name
`"PT Abadi Kreasi Unggul Nusantara"`, share count `5311440200` and
ownership percent `69.07`. -/
theorem c5_two_line_continuation :
    modal_step (L "30 Juni 2025", none) (L "PT Abadi Kreasi Unggul") =
      ((L "30 Juni 2025", some (L "PT Abadi Kreasi Unggul")), none) ∧
    parse_modal_saham_format
        (L "PT Abadi Kreasi Unggul\nNusantara 5.311.440.200 69,0717%")
        [L "30 Juni 2025"] =
      [⟨L "30 Juni 2025", L "PT Abadi Kreasi Unggul Nusantara",
        5311440200, mkRat 6907 100⟩] := by
  constructor
  · decide
  · decide

/-- C7: the name normalizer collapses the bilingual duplicate rendering
`"PT Abadi Kreasi Unggul PT Abadi Kreasi Unggul Nusantara"` to
`"PT Abadi Kreasi Unggul Nusantara"`. -/
theorem c7_bilingual_duplicate_collapse :
    clean_shareholder_name_v2
        (L "PT Abadi Kreasi Unggul PT Abadi Kreasi Unggul Nusantara") =
      L "PT Abadi Kreasi Unggul Nusantara" := by
  decide

/-- C1: the final sort does not implement the claimed order.  On the
concrete input below the code places the `"Unknown"`-dated record
first (the claim says labels without a recognized date sort last) and,
within the equal date `"30 Juni 2025"`, sorts `ownershipPercent`
ascending 10 then 20 (the claim — and the comment on line 224 of the
source — say highest first): `sort(key=lambda x: (x['tanggal'],
-x['persentase']), reverse=True)` reverses the `-persentase` component
as well, so the two negations cancel. -/
theorem c1_sort_order_bug :
    finalize_records
        [⟨L "30 Juni 2025", L "Alfa", 2000, 10⟩,
         ⟨L "30 Juni 2025", L "Beta", 3000, 20⟩,
         ⟨L "Unknown", L "Gama", 4000, 5⟩] =
      [⟨L "Unknown", L "Gama", 4000, 5⟩,
       ⟨L "30 Juni 2025", L "Alfa", 2000, 10⟩,
       ⟨L "30 Juni 2025", L "Beta", 3000, 20⟩] ∧
    ¬ specSorted
        [⟨L "Unknown", L "Gama", 4000, 5⟩,
         ⟨L "30 Juni 2025", L "Alfa", 2000, 10⟩,
         ⟨L "30 Juni 2025", L "Beta", 3000, 20⟩] := by
  constructor
  · decide
  · intro hs
    rcases hs with _ | ⟨_, _ | ⟨hpair, _⟩⟩
    have h20 :=
      (hpair ⟨L "30 Juni 2025", L "Beta", 3000, 20⟩ (by simp)).2 rfl
    simp only at h20
    exact absurd h20 (by norm_num)

/-- C2 counterexample: the structured-section row parser emits a record
with `ownershipPercent = 0` (its guard is `percentage < 0`, not
`percentage <= 0`), so "ownershipPercent strictly greater than 0 in
both strategies" is false, and a line whose parsed percentage is 0 does
yield a record. -/
theorem c2_zero_percent_emitted :
    extract_modal_saham_row_v2 (L "PT Abadi Corp 10.000 0,00%")
        (L "30 Juni 2025") none =
      some ⟨L "30 Juni 2025", L "PT Abadi Corp", 10000, 0⟩ ∧
    ¬ ((0 : ℚ) < 0) := by
  exact ⟨by decide, by norm_num⟩

/-- C4 counterexample: for the line `"Muhammad Arif 10.000 69,0789%"`
the parsed percentage is `69.0789` (more than 2 fractional digits,
value at least 0.01), whose rounding to 2 decimal places is `69.08`;
the structured-section strategy emits `69.07` instead (it truncates the
decimal string), so "rounded to 2 decimal places" is false for that
strategy. -/
theorem c4_truncation_not_rounding :
    pctVal (L "69") (L "0789") = mkRat 690789 10000 ∧
    pyRound2 (mkRat 690789 10000) = mkRat 6908 100 ∧
    extract_modal_saham_row_v2 (L "Muhammad Arif 10.000 69,0789%")
        (L "30 Juni 2025") none =
      some ⟨L "30 Juni 2025", L "Muhammad Arif", 10000, mkRat 6907 100⟩ ∧
    mkRat 6907 100 ≠ mkRat 6908 100 := by
  refine ⟨by decide, by decide, by decide, by decide⟩

/-- C9 counterexample: a page whose only numbered "Modal Saham" header
is marked `"(Lanjutan)"` can still be selected — as the generic
`susunan` format — when it carries shareholder keywords and table
evidence, so "continuation pages are excluded from processing" is
false (they are only excluded from the STRUCTURED_SECTION branch). -/
theorem c9_continuation_page_processed :
    is_modal_saham_continuation
        (L "1. Modal Saham (Lanjutan)\nPersentase Pemegang Saham\nPT Bu 1.000.000 50,00") = true ∧
    classify_page
        (L "1. Modal Saham (Lanjutan)\nPersentase Pemegang Saham\nPT Bu 1.000.000 50,00") =
      some PageKind.susunan := by
  exact ⟨by decide, by decide⟩

/-- C9 (amended): a page whose numbered "Share Capital" header is
marked as a continuation is never selected as STRUCTURED_SECTION
(though it may still be selected as the generic format), and pages
matching the table-of-contents or sales/customer-concentration
patterns are never selected under any format. -/
theorem c9_classifier_exclusions :
    (∀ t, is_modal_saham_continuation t = true →
       classify_page t ≠ some PageKind.modal_saham) ∧
    (∀ t, is_toc t = true → classify_page t = none) ∧
    (∀ t, is_sales_page t = true → classify_page t = none) := by
  refine ⟨?_, ?_, ?_⟩
  · intro t h hmem
    unfold classify_page at hmem
    rw [h] at hmem
    repeat' split at hmem <;> simp_all
  · intro t h
    unfold classify_page
    simp [h]
  · intro t h
    unfold classify_page
    simp [h]

/-- The C9 amendment applied at a concrete continuation-only page. -/
theorem c9_classifier_exclusions_witness :
    is_modal_saham_continuation (L "1. Modal Saham (Lanjutan) pemegang saham") = true ∧
    classify_page (L "1. Modal Saham (Lanjutan) pemegang saham") ≠
      some PageKind.modal_saham :=
  ⟨by decide,
   c9_classifier_exclusions.1 (L "1. Modal Saham (Lanjutan) pemegang saham") (by decide)⟩

/-- C6: separator resolution.  A qualifying run is a match of
`\d{1,3}(?:<sep>\d{3}){2,}` (at least two 3-digit groups).  If exactly
one style qualifies it is chosen; if both qualify, the style whose
`findall` tokens capture at least as many digits wins, ties to
dot-thousands; if neither qualifies and no single 3-digit group
(`\d{1,3}<sep>\d{3}(?!\d)`) exists for either separator, the row
parser emits no record. -/
theorem c6_separator_resolution :
    (∀ line, hasRun '.' line = true → hasRun ',' line = false →
       detect_separator line = some ('.', ',', findallNums '.' line)) ∧
    (∀ line, hasRun ',' line = true → hasRun '.' line = false →
       detect_separator line = some (',', '.', findallNums ',' line)) ∧
    (∀ line, hasRun '.' line = true → hasRun ',' line = true →
       totalDigits ',' (findallNums ',' line) ≤ totalDigits '.' (findallNums '.' line) →
       detect_separator line = some ('.', ',', findallNums '.' line)) ∧
    (∀ line, hasRun '.' line = true → hasRun ',' line = true →
       totalDigits '.' (findallNums '.' line) < totalDigits ',' (findallNums ',' line) →
       detect_separator line = some (',', '.', findallNums ',' line)) ∧
    (∀ line, hasRun '.' line = false → hasRun ',' line = false →
       hasSmallGroup '.' line = false → hasSmallGroup ',' line = false →
       ∀ d pfx, extract_modal_saham_row_v2 line d pfx = none) := by
  refine ⟨?_, ?_, ?_, ?_, ?_⟩
  · intro line h1 h2
    unfold detect_separator
    simp [h1, h2]
  · intro line h1 h2
    unfold detect_separator
    simp [h1, h2]
  · intro line h1 h2 hle
    unfold detect_separator
    simp [h1, h2, hle]
  · intro line h1 h2 hlt
    unfold detect_separator
    simp [h1, h2, not_le_of_lt hlt]
  · intro line h1 h2 h3 h4 d pfx
    have hdet : detect_separator line = none := by
      unfold detect_separator
      simp [h1, h2, h3, h4]
    unfold extract_modal_saham_row_v2
    rw [hdet]
    split <;> first | rfl | (split <;> rfl)

/-- The C6 resolution applied at concrete inputs: a dot-thousands line,
and a line with no qualifying run and no single group. -/
theorem c6_separator_resolution_witness :
    detect_separator (L "Nusantara 5.311.440.200 69,0717%") =
      some ('.', ',', [L "5.311.440.200"]) ∧
    extract_modal_saham_row_v2 (L "tanpa angka sama sekali") (L "d") none = none := by
  constructor
  · have h := c6_separator_resolution.1 (L "Nusantara 5.311.440.200 69,0717%")
      (by decide) (by decide)
    rw [h]
    decide
  · exact c6_separator_resolution.2.2.2.2 (L "tanpa angka sama sekali")
      (by decide) (by decide) (by decide) (by decide) (L "d") none

/-! ### Inversion lemmas: what must have held for a row to be emitted -/

set_option maxHeartbeats 2000000

/-- A record emitted by the structured-section row parser passed the
percentage guard (`percentage < 0 or percentage > 100`) and the share
minimum (`shares < 1_000`), and its fields come from the detected
separator, the matched percentage groups and the requested date. -/
lemma modal_row_inv {line d : List Char} {pfx : Option (List Char)}
    {r : Shareholder} (h : extract_modal_saham_row_v2 line d pfx = some r) :
    ∃ ts ds nums ip dp,
      detect_separator line = some (ts, ds, nums) ∧
      pct_search ds line = some (ip, dp) ∧
      r.tanggal = d ∧
      r.persentase = modal_percentage ip dp ∧
      ¬ modal_percentage ip dp < 0 ∧ ¬ 100 < modal_percentage ip dp ∧
      1000 ≤ r.jumlah_saham := by
  unfold extract_modal_saham_row_v2 at h
  dsimp only at h
  repeat' split at h
  all_goals first
    | exact Option.noConfusion h
    | (cases h
       refine ⟨_, _, _, _, _, by assumption, by assumption, rfl, rfl, ?_, ?_, ?_⟩
       · simp_all [not_or]
       · simp_all [not_or]
       · simp_all [not_lt])

/-- A record emitted by the generic row parser passed the percentage
guard (`percentage <= 0 or percentage > 100`) and the share minimum,
and its percentage is `generic_percentage` of matched groups. -/
lemma generic_row_inv {line d : List Char} {pfx : Option (List Char)}
    {r : Shareholder} (h : extract_shareholder_single_row_v2 line d pfx = some r) :
    ∃ start tok ip dp,
      share_match line = some (start, tok) ∧
      r.tanggal = d ∧
      r.persentase = generic_percentage ip dp ∧
      ¬ generic_percentage ip dp ≤ 0 ∧ ¬ 100 < generic_percentage ip dp ∧
      r.jumlah_saham = tokenVal '.' tok ∧
      1000 ≤ r.jumlah_saham := by
  unfold extract_shareholder_single_row_v2 at h
  dsimp only at h
  repeat' split at h
  all_goals first
    | exact Option.noConfusion h
    | (cases h
       refine ⟨_, _, _, _, by assumption, rfl, rfl, ?_, ?_, rfl, ?_⟩
       · simp_all [not_or]
       · simp_all [not_or]
       · simp_all [not_lt])

/-- C2 (amended): every record emitted by the structured-section row
parser has `0 ≤ ownershipPercent ≤ 100` — zero percent is emitted,
since its guard is `percentage < 0` — while every record emitted by
the generic row parser has `0 < ownershipPercent ≤ 100`; parsed
percentages above 100 (or below 0) never produce a record in either
strategy. -/
theorem c2_percent_bounds :
    (∀ line d pfx r, extract_modal_saham_row_v2 line d pfx = some r →
       0 ≤ r.persentase ∧ r.persentase ≤ 100) ∧
    (∀ line d pfx r, extract_shareholder_single_row_v2 line d pfx = some r →
       0 < r.persentase ∧ r.persentase ≤ 100) := by
  constructor
  · intro line d pfx r h
    obtain ⟨_, _, _, _, _, _, _, _, hp, hlo, hhi, _⟩ := modal_row_inv h
    rw [hp]
    exact ⟨not_lt.mp hlo, not_lt.mp hhi⟩
  · intro line d pfx r h
    obtain ⟨_, _, _, _, _, _, hp, hlo, hhi, _, _⟩ := generic_row_inv h
    rw [hp]
    exact ⟨not_le.mp hlo, not_lt.mp hhi⟩

/-- The C2 bounds at concrete emitted records of both strategies. -/
theorem c2_percent_bounds_witness :
    (0 ≤ (mkRat 6907 100 : ℚ) ∧ (mkRat 6907 100 : ℚ) ≤ 100) ∧
    (0 < (mkRat 1 10000 : ℚ) ∧ (mkRat 1 10000 : ℚ) ≤ 100) := by
  constructor
  · have h := c2_percent_bounds.1 (L "Nusantara 5.311.440.200 69,0717%")
      (L "30 Juni 2025") (some (L "PT Abadi Kreasi Unggul"))
      ⟨L "30 Juni 2025", L "PT Abadi Kreasi Unggul Nusantara", 5311440200,
       mkRat 6907 100⟩ (by decide)
    exact h
  · have h := c2_percent_bounds.2 (L "Muhammad Arif 10.000 0,0001%")
      (L "30 Juni 2025") none
      ⟨L "30 Juni 2025", L "Muhammad Arif", 10000, mkRat 1 10000⟩ (by decide)
    exact h

/-- C10: every record emitted by either active row-parsing strategy has
an integer share count of at least 1,000 (both guards read
`if shares < 1_000: return None`), so a parsed share count below 1,000
never yields a record. -/
theorem c10_share_minimum :
    (∀ line d pfx r, extract_modal_saham_row_v2 line d pfx = some r →
       1000 ≤ r.jumlah_saham) ∧
    (∀ line d pfx r, extract_shareholder_single_row_v2 line d pfx = some r →
       1000 ≤ r.jumlah_saham) := by
  constructor
  · intro line d pfx r h
    obtain ⟨_, _, _, _, _, _, _, _, _, _, _, hmin⟩ := modal_row_inv h
    exact hmin
  · intro line d pfx r h
    obtain ⟨_, _, _, _, _, _, _, _, _, _, hmin⟩ := generic_row_inv h
    exact hmin

/-- The C10 minimum at concrete emitted records of both strategies. -/
theorem c10_share_minimum_witness :
    1000 ≤
      (⟨L "30 Juni 2025", L "Muhammad Arif", 10000, mkRat 1 10000⟩ :
        Shareholder).jumlah_saham ∧
    1000 ≤
      (⟨L "30 Juni 2025", L "PT Omudas Investment Holdco", 2774000000,
        mkRat 6113 100⟩ : Shareholder).jumlah_saham := by
  constructor
  · exact c10_share_minimum.1 (L "Muhammad Arif 10.000 0,0001%")
      (L "30 Juni 2025") none _ (by decide)
  · exact c10_share_minimum.2 (L "PT Omudas Investment Holdco 2.774.000.000 61,13%")
      (L "30 Juni 2025") none _ (by decide)

/-! ### Deduplication and sort lemmas (for C3) -/

/-- Keys of records kept by the dedup loop were not already seen. -/
lemma dedupGo_mem_not_seen :
    ∀ {l : List Shareholder} {seen} {r : Shareholder},
      r ∈ dedupGo seen l → recKey r ∉ seen := by
  intro l
  induction l with
  | nil => intro seen r h; simp [dedupGo] at h
  | cons s rest ih =>
    intro seen r h
    by_cases hs : recKey s ∈ seen
    · rw [dedupGo, if_pos hs] at h
      exact ih h
    · rw [dedupGo, if_neg hs] at h
      rcases List.mem_cons.mp h with rfl | hmem
      · exact hs
      · intro hseen
        exact ih hmem (List.mem_cons_of_mem _ hseen)

/-- The dedup loop emits pairwise distinct keys. -/
lemma dedupGo_pairwise :
    ∀ {l : List Shareholder} {seen},
      (dedupGo seen l).Pairwise (fun a b => recKey a ≠ recKey b) := by
  intro l
  induction l with
  | nil => intro seen; simp [dedupGo]
  | cons s rest ih =>
    intro seen
    by_cases hs : recKey s ∈ seen
    · rw [dedupGo, if_pos hs]
      exact ih
    · rw [dedupGo, if_neg hs]
      refine List.Pairwise.cons ?_ ih
      intro b hb heq
      exact dedupGo_mem_not_seen hb (heq ▸ List.mem_cons_self _ _)

/-- Every record kept by the dedup loop is the first element of the
input carrying its key. -/
lemma dedupGo_first :
    ∀ {l : List Shareholder} {seen} {r : Shareholder},
      r ∈ dedupGo seen l →
      (l.filter (fun x => decide (recKey x = recKey r))).head? = some r := by
  intro l
  induction l with
  | nil => intro seen r h; simp [dedupGo] at h
  | cons s rest ih =>
    intro seen r h
    by_cases hs : recKey s ∈ seen
    · rw [dedupGo, if_pos hs] at h
      have hne : recKey s ≠ recKey r := by
        intro heq
        exact dedupGo_mem_not_seen h (heq ▸ hs)
      simp only [List.filter_cons, decide_eq_true_eq]
      rw [if_neg (by simpa using hne)]
      exact ih h
    · rw [dedupGo, if_neg hs] at h
      rcases List.mem_cons.mp h with rfl | hmem
      · simp [List.filter_cons]
      · have hnot : recKey r ∉ (recKey s :: seen) := dedupGo_mem_not_seen hmem
        have hne : recKey s ≠ recKey r := by
          intro heq
          exact hnot (heq ▸ List.mem_cons_self _ _)
        simp only [List.filter_cons, decide_eq_true_eq]
        rw [if_neg (by simpa using hne)]
        exact ih hmem

/-- Stable insertion permutes. -/
lemma insortDesc_perm (a : Shareholder) :
    ∀ l, List.Perm (insortDesc a l) (a :: l) := by
  intro l
  induction l with
  | nil => rfl
  | cons b l ih =>
    rw [insortDesc]
    split
    · rfl
    · exact (List.Perm.cons b ih).trans (List.Perm.swap a b l)

/-- The final sort is a permutation of its input. -/
lemma pySortRecords_perm : ∀ l, List.Perm (pySortRecords l) l := by
  intro l
  induction l with
  | nil => rfl
  | cons a l ih =>
    exact (insortDesc_perm a (pySortRecords l)).trans (List.Perm.cons a ih)

/-- C3: the deduplicated, sorted pipeline output carries pairwise
distinct `(reportDate, holderName, shareCount)` keys — two records
with the same key are the same record — and every output record is the
first record of the extraction-ordered input with its key. -/
theorem c3_dedup_first_occurrence :
    ∀ l : List Shareholder,
      (finalize_records l).Pairwise (fun a b => recKey a ≠ recKey b) ∧
      ∀ r ∈ finalize_records l,
        (l.filter (fun x => decide (recKey x = recKey r))).head? = some r := by
  intro l
  have hperm := pySortRecords_perm (remove_duplicates l)
  constructor
  · exact (hperm.pairwise_iff (fun h heq => h heq.symm)).mpr dedupGo_pairwise
  · intro r hr
    exact dedupGo_first (hperm.mem_iff.mp hr)

/-- The C3 statement applied to a concrete list with an exact
duplicate. -/
theorem c3_dedup_first_occurrence_witness :
    ([⟨L "d", L "Alfa", 2000, 10⟩, ⟨L "d", L "Alfa", 2000, 10⟩,
      ⟨L "d", L "Beta", 3000, 20⟩].filter
        (fun x => decide (recKey x = recKey (⟨L "d", L "Alfa", 2000, 10⟩ : Shareholder)))).head? =
      some ⟨L "d", L "Alfa", 2000, 10⟩ :=
  (c3_dedup_first_occurrence
      [⟨L "d", L "Alfa", 2000, 10⟩, ⟨L "d", L "Alfa", 2000, 10⟩,
       ⟨L "d", L "Beta", 3000, 20⟩]).2
    ⟨L "d", L "Alfa", 2000, 10⟩ (by decide)

/-! ### Batch lemmas (for C8) -/

/-- The entry built for a name keeps that name. -/
lemma entry_for_name (fs : List Char → FileOutcome) (n : List Char) :
    (entry_for fs n).file_name = n := by
  unfold entry_for
  split <;> rfl

/-- Requested names absent from a request list leave no entries. -/
lemma batch_filter_nil (fs : List Char → FileOutcome) :
    ∀ (names : List (List Char)) (n : List Char), n ∉ names →
      (extract_from_files fs names).filter
          (fun e => decide (e.file_name = n)) = [] := by
  intro names
  induction names with
  | nil => intro n _; rfl
  | cons m rest ih =>
    intro n hn
    have hne : m ≠ n := fun h => hn (h ▸ List.mem_cons_self _ _)
    simp only [extract_from_files, List.map_cons, List.filter_cons]
    rw [entry_for_name, if_neg (by simpa using hne)]
    exact ih n (fun h => hn (List.mem_cons_of_mem _ h))

/-- C8: a batch result has one entry per requested identifier, in
order; identifiers of a duplicate-free request each appear exactly
once; a missing file yields the error entry `"File not found"` with an
empty record list; a present document extracting records `rs` — also
when `rs` is empty — yields a success entry (no error) carrying `rs`;
and the entry of an identifier is independent of the surrounding
request (so one missing file never affects the other identifiers). -/
theorem c8_batch_contract :
    (∀ fs names, (extract_from_files fs names).length = names.length) ∧
    (∀ fs names n, names.Nodup → n ∈ names →
       ((extract_from_files fs names).filter
           (fun e => decide (e.file_name = n))).length = 1) ∧
    (∀ fs n, fs n = FileOutcome.missing →
       entry_for fs n = ⟨n, some (L "File not found"), []⟩) ∧
    (∀ fs n rs, fs n = FileOutcome.extracted rs →
       entry_for fs n = ⟨n, none, rs⟩) ∧
    (∀ fs pre n post,
       extract_from_files fs (pre ++ n :: post) =
         extract_from_files fs pre ++
           entry_for fs n :: extract_from_files fs post) := by
  refine ⟨?_, ?_, ?_, ?_, ?_⟩
  · intro fs names
    exact List.length_map _ _
  · intro fs names
    induction names with
    | nil => intro n _ h; simp at h
    | cons m rest ih =>
      intro n hnd hmem
      have hrest : rest.Nodup := (List.nodup_cons.mp hnd).2
      have hm : m ∉ rest := (List.nodup_cons.mp hnd).1
      simp only [extract_from_files, List.map_cons, List.filter_cons]
      rw [entry_for_name]
      rcases List.mem_cons.mp hmem with rfl | hmem2
      · rw [if_pos (by simp)]
        have := batch_filter_nil fs rest n hm
        simp only [extract_from_files] at this
        simp [this]
      · have hne : m ≠ n := fun h => hm (h ▸ hmem2)
        rw [if_neg (by simpa using hne)]
        exact ih n hrest hmem2
  · intro fs n h
    unfold entry_for
    rw [h]
  · intro fs n rs h
    unfold entry_for
    rw [h]
  · intro fs pre n post
    simp [extract_from_files]

/-- The C8 contract applied to the spec scenario: request
`["A.pdf", "missing.pdf"]` where only `A.pdf` exists (and extracts no
records). -/
theorem c8_batch_contract_witness :
    entry_for
        (fun nm => if nm = L "A.pdf" then FileOutcome.extracted [] else FileOutcome.missing)
        (L "missing.pdf") =
      ⟨L "missing.pdf", some (L "File not found"), []⟩ ∧
    entry_for
        (fun nm => if nm = L "A.pdf" then FileOutcome.extracted [] else FileOutcome.missing)
        (L "A.pdf") =
      ⟨L "A.pdf", none, []⟩ ∧
    ((extract_from_files
        (fun nm => if nm = L "A.pdf" then FileOutcome.extracted [] else FileOutcome.missing)
        [L "A.pdf", L "missing.pdf"]).filter
          (fun e => decide (e.file_name = L "missing.pdf"))).length = 1 := by
  refine ⟨?_, ?_, ?_⟩
  · exact c8_batch_contract.2.2.1 _ (L "missing.pdf") (by decide)
  · exact c8_batch_contract.2.2.2.1 _ (L "A.pdf") [] (by decide)
  · exact c8_batch_contract.2.1 _ [L "A.pdf", L "missing.pdf"] (L "missing.pdf")
      (by decide) (by decide)

/-! ### Decimal arithmetic lemmas (for C4) -/

/-- The digit-fold with an accumulator. -/
lemma digitsVal_acc (ds : List Char) :
    ∀ a : ℕ,
      ds.foldl (fun v c => v * 10 + (c.toNat - '0'.toNat)) a =
        a * 10 ^ ds.length + digitsVal ds := by
  induction ds with
  | nil => intro a; simp [digitsVal]
  | cons c ds ih =>
    intro a
    have h0 : digitsVal (c :: ds) =
        (c.toNat - '0'.toNat) * 10 ^ ds.length + digitsVal ds := by
      show List.foldl _ (0 * 10 + (c.toNat - '0'.toNat)) ds = _
      rw [ih]
      ring_nf
    show List.foldl _ (a * 10 + (c.toNat - '0'.toNat)) ds = _
    rw [ih, h0, List.length_cons, pow_succ]
    ring

/-- Value of a concatenation of digit strings. -/
lemma digitsVal_append (xs ys : List Char) :
    digitsVal (xs ++ ys) = digitsVal xs * 10 ^ ys.length + digitsVal ys := by
  unfold digitsVal
  rw [List.foldl_append]
  exact digitsVal_acc ys _

/-- A digit character contributes at most 9. -/
lemma digit_le_nine {c : Char} (h : isDigit c = true) : c.toNat - '0'.toNat ≤ 9 := by
  unfold isDigit at h
  rw [Bool.and_eq_true, decide_eq_true_eq, decide_eq_true_eq] at h
  have h9 : c.toNat ≤ 57 := by
    have := h.2
    rw [Char.le_def, UInt32.le_def, BitVec.le_def] at this
    exact this
  have h48 : '0'.toNat = 48 := rfl
  omega

/-- A string of `n` digits denotes a value below `10 ^ n`. -/
lemma digitsVal_lt {ds : List Char} (h : ∀ c ∈ ds, isDigit c = true) :
    digitsVal ds < 10 ^ ds.length := by
  induction ds with
  | nil => simp [digitsVal]
  | cons c ds ih =>
    have hc : c.toNat - '0'.toNat ≤ 9 := digit_le_nine (h c (List.mem_cons_self _ _))
    have hds : digitsVal ds < 10 ^ ds.length :=
      ih (fun x hx => h x (List.mem_cons_of_mem _ hx))
    have hcons : digitsVal (c :: ds) =
        (c.toNat - '0'.toNat) * 10 ^ ds.length + digitsVal ds := by
      show List.foldl _ (0 * 10 + (c.toNat - '0'.toNat)) ds = _
      rw [digitsVal_acc]
      ring_nf
    rw [hcons, List.length_cons, pow_succ]
    calc (c.toNat - '0'.toNat) * 10 ^ ds.length + digitsVal ds
        < (c.toNat - '0'.toNat) * 10 ^ ds.length + 10 ^ ds.length := by omega
      _ = ((c.toNat - '0'.toNat) + 1) * 10 ^ ds.length := by ring
      _ ≤ 10 * 10 ^ ds.length := Nat.mul_le_mul_right _ (by omega)
      _ = 10 ^ ds.length * 10 := by ring

/-- `pctVal` as a quotient. -/
lemma pctVal_eq_div (ip dp : List Char) :
    pctVal ip dp =
      ((digitsVal ip * 10 ^ dp.length + digitsVal dp : ℕ) : ℚ) /
        ((10 ^ dp.length : ℕ) : ℚ) := by
  unfold pctVal
  rw [Rat.mkRat_eq_div]
  push_cast
  ring_nf

/-- Truncating the decimal string to its first two digits yields the
greatest multiple of 1/100 not exceeding the parsed value. -/
lemma trunc2_bounds (ip dp : List Char) (hdp : ∀ c ∈ dp, isDigit c = true)
    (hlen : 2 < dp.length) :
    pctVal ip (dp.take 2) ≤ pctVal ip dp ∧
      pctVal ip dp < pctVal ip (dp.take 2) + mkRat 1 100 := by
  have hsplit : dp.take 2 ++ dp.drop 2 = dp := List.take_append_drop 2 dp
  have hlen2 : (dp.take 2).length = 2 := by
    rw [List.length_take]
    omega
  have hlend : (dp.drop 2).length = dp.length - 2 := List.length_drop 2 dp
  have hD : digitsVal dp =
      digitsVal (dp.take 2) * 10 ^ (dp.length - 2) + digitsVal (dp.drop 2) := by
    conv_lhs => rw [← hsplit]
    rw [digitsVal_append, hlend]
  have hD2 : digitsVal (dp.drop 2) < 10 ^ (dp.length - 2) := by
    have := digitsVal_lt
      (fun c (hc : c ∈ dp.drop 2) => hdp c (List.mem_of_mem_drop hc))
    rwa [hlend] at this
  have hn : dp.length = (dp.length - 2) + 2 := by omega
  have hpow : (10 : ℕ) ^ dp.length = 10 ^ (dp.length - 2) * 100 := by
    conv_lhs => rw [hn]
    rw [pow_add]
    norm_num
  have h1 : mkRat 1 100 = (1 : ℚ) / 100 := by
    rw [Rat.mkRat_eq_div]
    push_cast
    ring
  have hD2Q : ((digitsVal (dp.drop 2) : ℕ) : ℚ) < ((10 : ℚ)) ^ (dp.length - 2) := by
    exact_mod_cast hD2
  have hPQ : (0 : ℚ) < (10 : ℚ) ^ (dp.length - 2) := by positivity
  constructor
  · rw [pctVal_eq_div, pctVal_eq_div, hlen2, hD, hpow]
    rw [div_le_div_iff (by positivity) (by positivity)]
    push_cast
    nlinarith [hD2Q, hPQ]
  · rw [pctVal_eq_div, pctVal_eq_div, hlen2, hD, hpow, h1]
    rw [div_add_div _ _ (by positivity) (by norm_num : (100 : ℚ) ≠ 0)]
    rw [div_lt_div_iff (by positivity) (by positivity)]
    push_cast
    nlinarith [hD2Q, hPQ]

/-- `pyRound2` is rounding to the nearest hundredth (ties upward): it
never differs from its argument by more than 1/200. -/
lemma pyRound2_bounds (q : ℚ) :
    pyRound2 q ≤ q + mkRat 1 200 ∧ q < pyRound2 q + mkRat 1 200 := by
  have hden : (0 : ℤ) < (q.den : ℤ) := by exact_mod_cast q.pos
  have hb : (0 : ℤ) ≤ 2 * (q.den : ℤ) := by omega
  set a : ℤ := 2 * (q.num * 100) + (q.den : ℤ) with ha
  set b : ℤ := 2 * (q.den : ℤ) with hbdef
  set k : ℤ := Int.fdiv a b with hk
  have hkdiv : k = a / b := by
    rw [hk, Int.fdiv_eq_ediv _ hb]
  have hbpos : (0 : ℤ) < b := by omega
  have hmod1 : 0 ≤ a % b := Int.emod_nonneg a (by omega)
  have hmod2 : a % b < b := Int.emod_lt_of_pos a hbpos
  have hdecomp : b * (a / b) + a % b = a := Int.ediv_add_emod a b
  have hlow : b * k ≤ a := by
    rw [hkdiv]
    omega
  have hhigh : a < b * k + b := by
    rw [hkdiv]
    omega
  have hval : pyRound2 q = (k : ℚ) / ((100 : ℕ) : ℚ) := by
    unfold pyRound2
    rw [Rat.mkRat_eq_div]
  have h200 : mkRat 1 200 = (1 : ℚ) / 200 := by
    rw [Rat.mkRat_eq_div]
    norm_num
  have hq : (q.num : ℚ) / ((q.den : ℤ) : ℚ) = q := by
    push_cast
    exact Rat.num_div_den q
  have hdenQ : (0 : ℚ) < ((q.den : ℤ) : ℚ) := by exact_mod_cast hden
  have hlowQ : 2 * ((q.den : ℤ) : ℚ) * (k : ℚ) ≤
      2 * ((q.num : ℚ) * 100) + ((q.den : ℤ) : ℚ) := by
    have h := hlow
    rw [hbdef, ha] at h
    exact_mod_cast h
  have hhighQ : 2 * ((q.num : ℚ) * 100) + ((q.den : ℤ) : ℚ) <
      2 * ((q.den : ℤ) : ℚ) * (k : ℚ) + 2 * ((q.den : ℤ) : ℚ) := by
    have h := hhigh
    rw [hbdef, ha] at h
    exact_mod_cast h
  constructor
  · rw [hval, h200, ← hq]
    rw [div_add_div _ _ (ne_of_gt hdenQ) (by norm_num : (200 : ℚ) ≠ 0)]
    rw [div_le_div_iff (by norm_num) (by positivity)]
    push_cast at hlowQ ⊢
    nlinarith [hlowQ, hdenQ]
  · rw [hval, h200, ← hq]
    rw [div_add_div _ _ (by norm_num : ((100 : ℕ) : ℚ) ≠ 0) (by norm_num : (200 : ℚ) ≠ 0)]
    rw [div_lt_div_iff hdenQ (by positivity)]
    push_cast at hhighQ ⊢
    nlinarith [hhighQ, hdenQ]

/-- C4 (amended): when the percentage's fractional part has more than
2 digits, the structured-section strategy TRUNCATES it to 2 digits —
the emitted value is the greatest multiple of 1/100 not exceeding the
parsed value — unless the integer part is `0` and the first fractional
digit is `0` (value below 0.1), in which case full precision is kept;
the generic strategy instead rounds to the nearest hundredth (within
1/200, ties upward) unless the parsed value is below 0.01, in which
case full precision is kept.  The line
`"Muhammad Arif 10.000 0,0001%"` yields ownershipPercent exactly
`0.0001` under both strategies. -/
theorem c4_percentage_precision :
    (∀ ip dp : List Char, (∀ c ∈ dp, isDigit c = true) → 2 < dp.length →
       ¬(ip = ['0'] ∧ dp.take 1 = ['0']) →
       modal_percentage ip dp = pctVal ip (dp.take 2) ∧
       pctVal ip (dp.take 2) ≤ pctVal ip dp ∧
       pctVal ip dp < pctVal ip (dp.take 2) + mkRat 1 100) ∧
    (∀ ip dp : List Char, ip = ['0'] → dp.take 1 = ['0'] →
       modal_percentage ip dp = pctVal ip dp) ∧
    (∀ ip dp : List Char, 2 < dp.length → mkRat 1 100 ≤ pctVal ip dp →
       generic_percentage ip dp = pyRound2 (pctVal ip dp) ∧
       pyRound2 (pctVal ip dp) ≤ pctVal ip dp + mkRat 1 200 ∧
       pctVal ip dp < pyRound2 (pctVal ip dp) + mkRat 1 200) ∧
    (∀ ip dp : List Char, ¬(2 < dp.length ∧ mkRat 1 100 ≤ pctVal ip dp) →
       generic_percentage ip dp = pctVal ip dp) ∧
    extract_modal_saham_row_v2 (L "Muhammad Arif 10.000 0,0001%")
        (L "30 Juni 2025") none =
      some ⟨L "30 Juni 2025", L "Muhammad Arif", 10000, mkRat 1 10000⟩ ∧
    extract_shareholder_single_row_v2 (L "Muhammad Arif 10.000 0,0001%")
        (L "30 Juni 2025") none =
      some ⟨L "30 Juni 2025", L "Muhammad Arif", 10000, mkRat 1 10000⟩ := by
  refine ⟨?_, ?_, ?_, ?_, by decide, by decide⟩
  · intro ip dp hdp hlen hne
    refine ⟨?_, (trunc2_bounds ip dp hdp hlen).1, (trunc2_bounds ip dp hdp hlen).2⟩
    unfold modal_percentage
    rw [if_neg ?hcond, if_pos hlen]
    case hcond =>
      simp only [Bool.and_eq_true, decide_eq_true_eq]
      exact hne
  · intro ip dp h1 h2
    unfold modal_percentage
    rw [if_pos (by simp [h1, h2])]
  · intro ip dp hlen hge
    refine ⟨?_, (pyRound2_bounds (pctVal ip dp)).1, (pyRound2_bounds (pctVal ip dp)).2⟩
    unfold generic_percentage
    rw [if_pos ?hcond]
    case hcond =>
      simp only [Bool.and_eq_true, decide_eq_true_eq]
      exact ⟨hlen, hge⟩
  · intro ip dp hnot
    unfold generic_percentage
    rw [if_neg ?hcond]
    case hcond =>
      simp only [Bool.and_eq_true, decide_eq_true_eq]
      exact hnot

/-- The C4 precision rules applied at the spec's concrete decimal
strings. -/
theorem c4_percentage_precision_witness :
    modal_percentage (L "69") (L "0717") = pctVal (L "69") (L "07") ∧
    generic_percentage (L "30") (L "9282") = pyRound2 (pctVal (L "30") (L "9282")) := by
  constructor
  · exact (c4_percentage_precision.1 (L "69") (L "0717")
      (by decide) (by decide) (by decide)).1
  · exact (c4_percentage_precision.2.2.1 (L "30") (L "9282")
      (by decide) (by decide)).1

end IdxShareholder










